import Mathlib

/-!
# Verification of the datasource-compiler core against its specification

This file gives a shallow embedding, in Lean 4, of the parts of the
repository that the specification's claims are about:

* `ChunkingRouterMS` (`_recursive_split`, `_hard_split`, `chunk_file`) from
  `__ChunkingRouterMS.py.txt` — the recursive prose splitter;
* `SearchEngineMS` (`search`, `_keyword_search_only`, `_get_query_embedding`,
  `_extract_snippet`) — the hybrid RRF search engine;
* `NeuralServiceMS.get_embedding` — the embedding client;
* `LibrarianServiceMS` (`create_kb`, `_sanitize_name`) — the KB store.

Python strings are modelled as `List Char`; Python `int` is `Int` (or `Nat`
where the source only ever sees non-negative values); fallible code returns
`Except`/`Option`; network and database collaborators (the Ollama HTTP calls,
the sqlite-vec / FTS5 indexes) are modelled as explicit oracle inputs, since
they are external to the repository.  Functions that may diverge in Python
(`_hard_split` with `overlap >= chunk_size`) are fuel-indexed, with `none`
marking divergence.  Character classes (`\s`, `str.isalnum`) are modelled at
their ASCII meaning.
-/

namespace ChunkingRouter

/-- Python `\s` / `str.strip` whitespace, at its ASCII meaning:
space, tab, newline, carriage return, form feed, vertical tab. -/
def pyIsSpace (c : Char) : Bool :=
  c = ' ' || c = '\t' || c = '\n' || c = '\r' || c = '\x0b' || c = '\x0c'

/-- Python `sep.join(docs)`: the pieces interleaved with one copy of `sep`. -/
def pyJoin (sep : List Char) : List (List Char) → List Char
  | [] => []
  | [d] => d
  | d :: ds => d ++ sep ++ pyJoin sep ds

/-- Prepend a character to the first piece of a split-in-progress. -/
def consHead (c : Char) : List (List Char) → List (List Char)
  | [] => [[c]]
  | p :: ps => (c :: p) :: ps

/-- Python `text.split(sep)` for a non-empty separator `sep`: split at each
left-to-right non-overlapping occurrence of `sep`, keeping empty pieces.
Fuel-indexed (structural) so that the kernel can evaluate it; `fuel ≥
text.length` is always sufficient. -/
def pySplitFuel : Nat → List Char → List Char → List (List Char)
  | _, _, [] => [[]]
  | 0, _, _ => [[]]
  | fuel + 1, sep, c :: rest =>
    if sep ≠ [] ∧ sep.isPrefixOf (c :: rest) then
      [] :: pySplitFuel fuel sep ((c :: rest).drop sep.length)
    else
      consHead c (pySplitFuel fuel sep rest)

/-- Python `text.split(sep)` (non-empty `sep`). -/
def pySplit (sep text : List Char) : List (List Char) :=
  pySplitFuel text.length sep text

/-- A sentence-ending character, the class `[.?!]` of the source's
sentence-splitting pattern. -/
def isSentencePunct (c : Char) : Bool :=
  c = '.' || c = '?' || c = '!'

/-- Python `re.split(r"(?<=[.?!])\s+", text)`, the one regular expression the
source uses: split at each maximal whitespace run whose preceding character is
`.`, `?` or `!`.  `prev` is the character before the current scan position
(a non-punctuation sentinel at the start of the text, and after a consumed
whitespace run the last whitespace character of that run). -/
def sentenceSplitFuel : Nat → Char → List Char → List (List Char)
  | _, _, [] => [[]]
  | 0, _, _ => [[]]
  | fuel + 1, prev, c :: rest =>
    if pyIsSpace c ∧ isSentencePunct prev then
      [] :: sentenceSplitFuel fuel ' ' (rest.dropWhile pyIsSpace)
    else
      consHead c (sentenceSplitFuel fuel c rest)

/-- `re.split` of the sentence pattern over a whole text. -/
def sentenceSplit (text : List Char) : List (List Char) :=
  sentenceSplitFuel text.length ' ' text

/-- The failure modes of the embedded splitter.  `emptySeparator` is Python's
`ValueError: empty separator` raised by `text.split("")`; `divergence` marks
an infinite Python loop (`_hard_split` with a non-positive step). -/
inductive SplitError where
  | emptySeparator
  | divergence
deriving DecidableEq, Repr

/-- One splitting step of `_recursive_split`: the source dispatches on
`len(current_sep) > 1 and "(" in current_sep` between `re.split` and
`str.split`; `str.split` with an empty separator raises `ValueError`. -/
def splitStep (sep text : List Char) : Except SplitError (List (List Char)) :=
  if sep.length > 1 ∧ '(' ∈ sep then
    .ok (sentenceSplit text)
  else if sep = [] then
    .error .emptySeparator
  else
    .ok (pySplit sep text)

/-- Python slicing `l[a:b]`: negative indices count from the end, and both
bounds are clamped into `[0, len(l)]`. -/
def pySlice (l : List Char) (a b : Int) : List Char :=
  let L : Int := l.length
  let lo : Int := if a < 0 then max 0 (L + a) else min a L
  let hi : Int := if b < 0 then max 0 (L + b) else min b L
  (l.drop lo.toNat).take (hi - lo).toNat

/-- `ChunkingRouterMS._hard_split`: the character sliding window
`while start < len(text): chunks.append(text[start:start+chunk_size]);
start += chunk_size - overlap`.  The Python loop does not terminate when
`chunk_size - overlap ≤ 0`, so the embedding is fuel-indexed and `none`
marks that divergence. -/
def hardSplitFuel (chunkSize overlap : Int) (text : List Char) :
    Nat → Int → Option (List (List Char))
  | 0, _ => none
  | fuel + 1, start =>
    if start < (text.length : Int) then
      match hardSplitFuel chunkSize overlap text fuel (start + (chunkSize - overlap)) with
      | none => none
      | some rest => some (pySlice text start (start + chunkSize) :: rest)
    else
      some []

/-- The piece-packing loop of `_recursive_split`: greedily pack consecutive
pieces into a buffer, flushing `current_sep.join(current_doc)` when the next
piece would overflow `max_size`, and recursing (via `recurse`, the next
separator tier) on any single piece that is itself larger than `max_size`.
State mirrors the Python locals: `doc` is `current_doc`, `curLen` is
`current_length`, `final` is `final_chunks`. -/
def packLoop (recurse : List Char → Except SplitError (List (List Char)))
    (sep : List Char) (maxSize : Nat) :
    List (List Char) → List (List Char) → Nat → List (List Char) →
    Except SplitError (List (List Char))
  | [], doc, _, final =>
    if doc ≠ [] then .ok (final ++ [pyJoin sep doc]) else .ok final
  | s :: rest, doc, curLen, final =>
    if s = [] then
      packLoop recurse sep maxSize rest doc curLen final
    else if s.length > maxSize then
      let final' := if doc ≠ [] then final ++ [pyJoin sep doc] else final
      match recurse s with
      | .error e => .error e
      | .ok sub => packLoop recurse sep maxSize rest [] 0 (final' ++ sub)
    else if curLen + s.length + sep.length > maxSize then
      packLoop recurse sep maxSize rest [s] s.length (final ++ [pyJoin sep doc])
    else
      packLoop recurse sep maxSize rest (doc ++ [s]) (curLen + s.length + sep.length) final

/-- `ChunkingRouterMS._recursive_split`, structurally recursive on a fuel that
bounds the number of separator tiers (the recursion only ever descends to the
tail of the separator list, so `separators.length` fuel is exact; the fuel-out
branch is unreachable under that fuel). -/
def recursiveSplitFuel (fuel : Nat) (text : List Char) (separators : List (List Char))
    (maxSize overlap : Nat) : Except SplitError (List (List Char)) :=
  if text.length ≤ maxSize then .ok [text]
  else
    match separators with
    | [] =>
      match hardSplitFuel (maxSize : Int) (overlap : Int) text (text.length + 1) 0 with
      | some cs => .ok cs
      | none => .error .divergence
    | sep :: rest =>
      match fuel with
      | 0 => .error .divergence
      | fuel' + 1 =>
        match splitStep sep text with
        | .error e => .error e
        | .ok splits =>
          packLoop (fun piece => recursiveSplitFuel fuel' piece rest maxSize overlap)
            sep maxSize splits [] 0 []

/-- `ChunkingRouterMS._recursive_split`. -/
def recursiveSplit (text : List Char) (separators : List (List Char))
    (maxSize overlap : Nat) : Except SplitError (List (List Char)) :=
  recursiveSplitFuel separators.length text separators maxSize overlap

/-- `self.separators = ["\n\n", "\n", "(?<=[.?!])\s+", " ", ""]`. -/
def defaultSeparators : List (List Char) :=
  ["\n\n".toList, "\n".toList, "(?<=[.?!])\\s+".toList, " ".toList, "".toList]

instance {ε α : Type} [DecidableEq ε] [DecidableEq α] : DecidableEq (Except ε α) :=
  fun x y =>
    match x, y with
    | .ok a, .ok b =>
      if h : a = b then .isTrue (by rw [h]) else .isFalse (by intro hc; cases hc; exact h rfl)
    | .error a, .error b =>
      if h : a = b then .isTrue (by rw [h]) else .isFalse (by intro hc; cases hc; exact h rfl)
    | .ok _, .error _ => .isFalse (by intro hc; cases hc)
    | .error _, .ok _ => .isFalse (by intro hc; cases hc)

/-- The `CodeChunk` record (vendored from `__PythonChunkerMS.py`) that
`chunk_file` wraps prose pieces in. -/
structure CodeChunk where
  name : List Char
  type : List Char
  content : List Char
  start_line : Nat
  end_line : Nat
deriving DecidableEq, Repr

/-- `ChunkingRouterMS.chunk_file`: route `.py` files to the Python specialist
(`PythonChunkerMS.chunk`, an in-repository collaborator whose body is outside
the embedded module, passed here as the function `pythonChunk`), and
everything else to the recursive prose splitter, wrapping the resulting
pieces as `CodeChunk(name=f"prose_chunk_{i}", type="text", content=c,
start_line=0, end_line=0)` in input order. -/
def chunkFile (pythonChunk : List Char → List CodeChunk) (text filename : List Char)
    (maxSize overlap : Nat) : Except SplitError (List CodeChunk) :=
  if ".py".toList.isSuffixOf filename then .ok (pythonChunk text)
  else
    match recursiveSplit text defaultSeparators maxSize overlap with
    | .error e => .error e
    | .ok raw =>
      .ok (raw.enum.map fun p =>
        ⟨"prose_chunk_".toList ++ (Nat.repr p.1).toList, "text".toList, p.2, 0, 0⟩)

end ChunkingRouter

namespace SearchEngine

/-- Outcome of one `requests.post` call to the embedding endpoint: the call
may time out, fail to connect, or return a status code with a JSON body whose
`"embedding"` key may be absent (`none`). -/
inductive HttpOutcome where
  | timeout
  | connError
  | resp (status : Nat) (embedding : Option (List ℚ))
deriving DecidableEq

/-- The `timeout=30` carried by `NeuralServiceMS.get_embedding`'s request
(`none` would mean no deadline). -/
def neuralEmbedTimeout : Option Nat := some 30

/-- The `timeout=5` carried by `SearchEngineMS._get_query_embedding`'s
request. -/
def queryEmbedTimeout : Option Nat := some 5

/-- `NeuralServiceMS.get_embedding`: returns the body's `"embedding"` value on
a 200 response, and `None` on any exception (timeout, connection error) or
non-200 status — the `try`/`except` absorbs the failure. -/
def neuralGetEmbedding (o : HttpOutcome) : Option (List ℚ) :=
  match o with
  | .resp status body => if status = 200 then body else none
  | _ => none

/-- `SearchEngineMS._get_query_embedding`: same shape as
`NeuralServiceMS.get_embedding` (its own timeout constant, same
absorb-to-`None` failure handling). -/
def queryGetEmbedding (o : HttpOutcome) : Option (List ℚ) :=
  match o with
  | .resp status body => if status = 200 then body else none
  | _ => none

/-- 1-based rank of `id` in a ranked list (the SQL
`row_number() OVER (ORDER BY ...)` of the row holding `id`), `none` if the
id is absent from the list. -/
def rankOfAux : List Nat → Nat → Nat → Option Nat
  | [], _, _ => none
  | x :: xs, id, i => if x = id then some i else rankOfAux xs id (i + 1)

def rankOf (l : List Nat) (id : Nat) : Option Nat :=
  rankOfAux l id 1

/-- The fused score of the search SQL:
`COALESCE(1.0 / (60 + v.rank), 0.0) + COALESCE(1.0 / (60 + f.rank), 0.0)`,
where `v`/`f` are the vector and keyword top-50 lists and a `NULL` rank
(candidate absent after the `LEFT JOIN`) contributes `0`. -/
def rrfScore (vec fts : List Nat) (id : Nat) : ℚ :=
  (match rankOf vec id with
   | some r => 1 / (60 + (r : ℚ))
   | none => 0) +
  (match rankOf fts id with
   | some r => 1 / (60 + (r : ℚ))
   | none => 0)

/-- Modelled from the spec: "each candidate's fused score is `Σ 1/(k + rank)`
summed over the lists in which it appears (`k` = 60 …; candidates absent from
a list contribute 0 for that list)", ranks starting at 1 in each list.
Stated as a sum over the (list, rank) positions holding the candidate. -/
def rrfSpecScore (vec fts : List Nat) (id : Nat) : ℚ :=
  ((vec.enum.filter (fun p => p.2 = id)).map (fun p => 1 / (60 + (p.1 : ℚ) + 1))).sum +
  ((fts.enum.filter (fun p => p.2 = id)).map (fun p => 1 / (60 + (p.1 : ℚ) + 1))).sum

/-- The state the search engine reads: the chunk table (`knowledge_chunks`,
scanned in id order), the ranked answers of the two external indexes for the
query at hand (sqlite-vec by ascending distance, FTS5 by ascending bm25
rank), and the per-chunk columns.  `present` is `os.path.exists(db_path)`. -/
structure SearchDB where
  present : Bool
  chunkIds : List Nat
  vecRank : List Nat
  ftsRank : List Nat
  path : Nat → List Char
  contentOf : Nat → List Char

/-- The vector CTE's `k = 50` cap. -/
def vec50 (db : SearchDB) : List Nat := db.vecRank.take 50

/-- The keyword CTE's `LIMIT 50`. -/
def fts50 (db : SearchDB) : List Nat := db.ftsRank.take 50

/-- The SQL `FROM knowledge_chunks kc LEFT JOIN … WHERE v.rowid IS NOT NULL
OR f.rowid IS NOT NULL`: the chunks that appear in at least one top-50 list,
in table-scan order. -/
def hybridCandidates (db : SearchDB) : List Nat :=
  db.chunkIds.filter (fun id => (vec50 db).contains id || (fts50 db).contains id)

/-- Each hybrid candidate with its fused `rrf_score`. -/
def hybridScored (db : SearchDB) : List (Nat × ℚ) :=
  (hybridCandidates db).map (fun id => (id, rrfScore (vec50 db) (fts50 db) id))

/-- Python `round(x, 4)` (round half to even at 4 decimal places), modelled on
the exact rationals standing in for SQLite's floats. -/
def roundHalfEven (q : ℚ) : ℤ :=
  if q - ⌊q⌋ < 1 / 2 then ⌊q⌋
  else if 1 / 2 < q - ⌊q⌋ then ⌊q⌋ + 1
  else if Even ⌊q⌋ then ⌊q⌋ else ⌊q⌋ + 1

def pyRound4 (q : ℚ) : ℚ :=
  (roundHalfEven (q * 10000) : ℚ) / 10000

/-- Python `str.find` over `List Char`: index of the first occurrence of
`pat` in `hay`, or `-1`. -/
def pyFindAux (pat : List Char) : List Char → Nat → Int
  | [], i => if pat = [] ∧ i = 0 then 0 else -1
  | c :: rest, i =>
    if pat.isPrefixOf (c :: rest) then (i : Int)
    else pyFindAux pat rest (i + 1)

def pyFind (hay pat : List Char) : Int :=
  pyFindAux pat hay 0

/-- `query.lower().split()`: the whitespace-separated words of the
lower-cased query (Python `str.split()` with no argument drops empty
pieces). -/
def pyWords (query : List Char) : List (List Char) :=
  ((query.map Char.toLower).splitOnP (fun c => ChunkingRouter.pyIsSpace c)).filter
    (fun w => w ≠ [])

/-- The window-building body of `_extract_snippet`, given the first query
word: find its first occurrence in the lower-cased content and return the
`[idx-60, idx+140)` window of the content around it — or the first 200
characters when it is absent — newlines flattened to spaces. -/
def snippetAround (content firstWord : List Char) : List Char :=
  let idx := pyFind (content.map Char.toLower) firstWord
  if idx = -1 then
    (ChunkingRouter.pySlice content 0 200).map (fun c => if c = '\n' then ' ' else c)
      ++ "...".toList
  else
    let start := max 0 (idx - 60)
    let stop := min (content.length : Int) (idx + 140)
    "...".toList
      ++ (ChunkingRouter.pySlice content start stop).map (fun c => if c = '\n' then ' ' else c)
      ++ "...".toList

/-- The Python exception `search` can leak: the `IndexError` raised by
`_extract_snippet`'s `query.lower().split()[0]` when the query contains no
word. -/
inductive PyError where
  | indexError
deriving DecidableEq

/-- `SearchEngineMS._extract_snippet`, faithfully: `query.lower().split()[0]`
raises `IndexError` when the lower-cased query contains no whitespace-
separated word; otherwise the snippet is the window around the first
word. -/
def extractSnippetE (content query : List Char) : Except PyError (List Char) :=
  match pyWords query with
  | [] => .error .indexError
  | w :: _ => .ok (snippetAround content w)

/-- The total snippet function used by the row-level result relation
`IsSearchResult`: it agrees with `extractSnippetE` on every query that has at
least one word (`extractSnippetE_ok`); on a word-less query — where the
source raises `IndexError`, see `extractSnippetE` and the outcome relation
`IsSearchOutcome` — this total stand-in returns the not-found branch. -/
def extractSnippet (content query : List Char) : List Char :=
  match pyWords query with
  | [] =>
    (ChunkingRouter.pySlice content 0 200).map (fun c => if c = '\n' then ' ' else c)
      ++ "...".toList
  | w :: _ => snippetAround content w

/-- One row of `search`'s result list:
`{"path": …, "score": round(score, 4), "snippet": …, "full_content": …}`. -/
structure ResultRow where
  path : List Char
  score : ℚ
  snippet : List Char
  full_content : List Char
deriving DecidableEq

/-- `SearchEngineMS._keyword_search_only`: the FTS5 rows in rank order,
`LIMIT limit`, each with score `0.0`. -/
def keywordSearchOnly (db : SearchDB) (query : List Char) (limit : Nat) : List ResultRow :=
  (db.ftsRank.take limit).map fun id =>
    ⟨db.path id, 0, extractSnippet (db.contentOf id) query, db.contentOf id⟩

/-- A result row of the hybrid SQL for candidate `id` with fused score `s`. -/
def mkHybridRow (db : SearchDB) (query : List Char) (p : Nat × ℚ) : ResultRow :=
  ⟨db.path p.1, pyRound4 p.2, extractSnippet (db.contentOf p.1) query, db.contentOf p.1⟩

/-- Weakly decreasing fused scores, the SQL `ORDER BY rrf_score DESC`. -/
def ScoreSortedDesc (l : List (Nat × ℚ)) : Prop :=
  l.Pairwise (fun a b => b.2 ≤ a.2)

/-- `SearchEngineMS.search` as a relation between its inputs and a possible
returned list.  The control flow is the source's: missing database file →
`[]`; embedding failure (`None` **or** the falsy `[]`) → the keyword-only
fallback; otherwise the hybrid SQL, whose `ORDER BY rrf_score DESC LIMIT ?`
fixes the score order but — having no secondary sort key — leaves the
relative order of equal-score rows unspecified, hence a relation: any
score-descending permutation of the fused candidates, truncated to `limit`,
is a possible result.  (The `except sqlite3.OperationalError` branch for a
missing sqlite-vec extension is not modelled: the index oracles in
`SearchDB` presuppose a loadable index.)  This row-level relation builds its
rows with the total `extractSnippet`; the relation that also carries the
`IndexError` a word-less query raises in the row loops is `IsSearchOutcome`
below. -/
def IsSearchResult (db : SearchDB) (query : List Char) (limit : Nat)
    (emb : Option (List ℚ)) (res : List ResultRow) : Prop :=
  if db.present = false then res = []
  else
    match emb with
    | none => res = keywordSearchOnly db query limit
    | some [] => res = keywordSearchOnly db query limit
    | some (_ :: _) =>
      ∃ scored : List (Nat × ℚ),
        scored.Perm (hybridScored db) ∧ ScoreSortedDesc scored ∧
        res = (scored.take limit).map (mkHybridRow db query)

/-- The result-building loop of `_keyword_search_only`
(`[{... "snippet": self._extract_snippet(r[1], query) ...} for r in rows]`):
one row per FTS match, each computing a snippet — so a word-less query
raises `IndexError` at the first row, and a store with no matching rows
returns `[]` without ever computing a snippet. -/
def rowsE (db : SearchDB) (query : List Char) : List Nat → Except PyError (List ResultRow)
  | [] => .ok []
  | id :: rest =>
    match extractSnippetE (db.contentOf id) query with
    | .error e => .error e
    | .ok sn =>
      match rowsE db query rest with
      | .error e => .error e
      | .ok rs => .ok (⟨db.path id, 0, sn, db.contentOf id⟩ :: rs)

/-- `SearchEngineMS._keyword_search_only` with its real exception behaviour
(the `cursor.execute` itself is the FTS oracle `ftsRank`, as everywhere in
this model). -/
def keywordSearchOnlyE (db : SearchDB) (query : List Char) (limit : Nat) :
    Except PyError (List ResultRow) :=
  rowsE db query (db.ftsRank.take limit)

/-- The result loop of the hybrid branch of `search`
(`snippet = self._extract_snippet(content, query)` per returned row), with
the same `IndexError` behaviour. -/
def hybridRowsE (db : SearchDB) (query : List Char) :
    List (Nat × ℚ) → Except PyError (List ResultRow)
  | [] => .ok []
  | p :: rest =>
    match extractSnippetE (db.contentOf p.1) query with
    | .error e => .error e
    | .ok sn =>
      match hybridRowsE db query rest with
      | .error e => .error e
      | .ok rs => .ok (⟨db.path p.1, pyRound4 p.2, sn, db.contentOf p.1⟩ :: rs)

/-- `SearchEngineMS.search` as a relation between its inputs and the Python
outcome — either a raised exception or a returned list.  Control flow as in
`IsSearchResult`, but the rows of both the keyword-only fallback and the
hybrid branch are built through the `IndexError`-faithful `extractSnippetE`,
so a word-less query raises out of `search` instead of returning whenever a
snippet has to be computed.  (As before, the sqlite index calls themselves
are oracles; their own `sqlite3.OperationalError` for a missing
index/extension lies outside the embedded Python logic.) -/
def IsSearchOutcome (db : SearchDB) (query : List Char) (limit : Nat)
    (emb : Option (List ℚ)) (res : Except PyError (List ResultRow)) : Prop :=
  if db.present = false then res = .ok []
  else
    match emb with
    | none => res = keywordSearchOnlyE db query limit
    | some [] => res = keywordSearchOnlyE db query limit
    | some (_ :: _) =>
      ∃ scored : List (Nat × ℚ),
        scored.Perm (hybridScored db) ∧ ScoreSortedDesc scored ∧
        res = hybridRowsE db query (scored.take limit)

end SearchEngine

namespace Librarian

/-- `LibrarianServiceMS._sanitize_name`: keep alphanumerics, spaces,
underscores and hyphens, `strip()` surrounding whitespace, replace spaces by
underscores, and append `.db` unless already present. -/
def sanitizeName (name : List Char) : List Char :=
  let kept := name.filter (fun c => c.isAlphanum || c = ' ' || c = '_' || c = '-')
  let stripped := ((kept.dropWhile (fun c => ChunkingRouter.pyIsSpace c)).reverse.dropWhile
    (fun c => ChunkingRouter.pyIsSpace c)).reverse
  let replaced := stripped.map (fun c => if c = ' ' then '_' else c)
  if ".db".toList.isSuffixOf replaced then replaced else replaced ++ ".db".toList

/-- The typed errors `create_kb` can leave the caller with. -/
inductive KbError where
  | fileExists
  | schemaInitFailed
deriving DecidableEq

/-- `LibrarianServiceMS.create_kb` over an explicit store state (the list of
database files in `storage_dir`).  `initOk` is the outcome of the schema
initialisation (the `sqlite3` calls inside the `try`, which run against the
filesystem and may raise): `sqlite3.connect` first creates the file; on an
exception the `except` block removes the partially created file
(`os.remove`) and re-raises.  Returns the result together with the new
store state. -/
def createKb (store : List (List Char)) (name : List Char) (initOk : Bool) :
    Except KbError (List Char) × List (List Char) :=
  let safe := sanitizeName name
  if safe ∈ store then (.error .fileExists, store)
  else
    let store' := store ++ [safe]
    if initOk then (.ok safe, store')
    else (.error .schemaInitFailed, store'.erase safe)

end Librarian


/-! ## Helper lemmas -/

namespace SearchEngine

theorem enumFrom_filter_eq_nil (id : Nat) : ∀ (xs : List Nat) (j : Nat), id ∉ xs →
    (xs.enumFrom j).filter (fun p => p.2 = id) = [] := by
  intro xs
  induction xs with
  | nil => intro j _; rfl
  | cons x xs ih =>
    intro j h
    have hx : x ≠ id := fun hxx => h (by simp [hxx])
    simp only [List.enumFrom, List.filter_cons]
    rw [if_neg (by simpa using hx)]
    exact ih (j + 1) (fun hm => h (List.mem_cons_of_mem _ hm))

theorem contrib_eq (id : Nat) : ∀ (l : List Nat), l.Nodup → ∀ i : Nat,
    (match rankOfAux l id (i + 1) with
     | some r => (1 : ℚ) / (60 + (r : ℚ))
     | none => 0)
      = (((l.enumFrom i).filter (fun p => p.2 = id)).map
          (fun p => (1 : ℚ) / (60 + (p.1 : ℚ) + 1))).sum := by
  intro l
  induction l with
  | nil => intro _ i; simp [rankOfAux]
  | cons x xs ih =>
    intro hnd i
    rw [List.nodup_cons] at hnd
    by_cases hx : x = id
    · subst hx
      have hrank : rankOfAux (x :: xs) x (i + 1) = some (i + 1) := by
        simp [rankOfAux]
      have hfil : (List.enumFrom i (x :: xs)).filter (fun p => p.2 = x) = [(i, x)] := by
        simp only [List.enumFrom, List.filter_cons]
        rw [if_pos (by simp)]
        rw [enumFrom_filter_eq_nil x xs (i + 1) hnd.1]
      rw [hrank, hfil]
      simp only [List.map_cons, List.map_nil, List.sum_cons, List.sum_nil]
      push_cast
      ring
    · have hrank : rankOfAux (x :: xs) id (i + 1) = rankOfAux xs id (i + 1 + 1) := by
        simp [rankOfAux, hx]
      have hfil : (List.enumFrom i (x :: xs)).filter (fun p => p.2 = id)
          = (List.enumFrom (i + 1) xs).filter (fun p => p.2 = id) := by
        simp only [List.enumFrom, List.filter_cons]
        rw [if_neg (by simpa using hx)]
      rw [hrank, hfil]
      exact ih hnd.2 (i + 1)

theorem rrfScore_eq_spec (vec fts : List Nat) (id : Nat)
    (hv : vec.Nodup) (hf : fts.Nodup) :
    rrfScore vec fts id = rrfSpecScore vec fts id := by
  unfold rrfScore rrfSpecScore rankOf
  rw [show vec.enum = vec.enumFrom 0 from rfl, show fts.enum = fts.enumFrom 0 from rfl]
  rw [show (1 : Nat) = 0 + 1 from rfl]
  rw [contrib_eq id vec hv 0, contrib_eq id fts hf 0]

end SearchEngine

/-! ## Claim theorems -/

/-- **C1.** For every query, the hybrid search assigns each fused candidate a
score equal to the spec's Reciprocal Rank Fusion formula — the sum over the
two top-50 ranked lists of `1/(60 + rank)` for the lists in which the
candidate appears, ranks starting at 1 — and in particular a candidate at
vector-rank 1 and keyword-rank 1 scores `1/61 + 1/61`, while a candidate
present only in the keyword list at rank 1 scores `1/61`. -/
theorem C1_rrf_fused_score (db : SearchEngine.SearchDB)
    (hv : db.vecRank.Nodup) (hf : db.ftsRank.Nodup) :
    (∀ p ∈ SearchEngine.hybridScored db,
      p.2 = SearchEngine.rrfSpecScore (SearchEngine.vec50 db) (SearchEngine.fts50 db) p.1) ∧
    SearchEngine.rrfScore [7] [7] 7 = 1 / 61 + 1 / 61 ∧
    SearchEngine.rrfScore [3, 5] [7] 7 = 1 / 61 := by
  refine ⟨?_, ?_, ?_⟩
  · intro p hp
    simp only [SearchEngine.hybridScored, List.mem_map] at hp
    obtain ⟨id, _, rfl⟩ := hp
    exact SearchEngine.rrfScore_eq_spec _ _ id
      (hv.sublist (List.take_sublist _ _)) (hf.sublist (List.take_sublist _ _))
  · norm_num [SearchEngine.rrfScore, SearchEngine.rankOf, SearchEngine.rankOfAux]
  · norm_num [SearchEngine.rrfScore, SearchEngine.rankOf, SearchEngine.rankOfAux]

/-- Witness for C1 at a concrete database. -/
theorem C1_rrf_fused_score_witness :
    ([1, 2] : List Nat).Nodup ∧
    (∀ p ∈ SearchEngine.hybridScored ⟨true, [1, 2], [1, 2], [2], fun _ => [], fun _ => []⟩,
      p.2 = SearchEngine.rrfSpecScore [1, 2] [2] p.1) := by
  refine ⟨by decide, ?_⟩
  have h := C1_rrf_fused_score ⟨true, [1, 2], [1, 2], [2], fun _ => [], fun _ => []⟩
    (by decide) (by decide)
  exact h.1

/-- **C8.** Every embedding request carries a bounded timeout (30 s in
`NeuralServiceMS.get_embedding`, 5 s in `SearchEngineMS._get_query_embedding`),
and on timeout, connection failure, or a non-200 response the embedding
operation returns `None` rather than raising. -/
theorem C8_embedding_failure_absorbed :
    SearchEngine.neuralEmbedTimeout = some 30 ∧
    SearchEngine.queryEmbedTimeout = some 5 ∧
    SearchEngine.neuralGetEmbedding .timeout = none ∧
    SearchEngine.neuralGetEmbedding .connError = none ∧
    SearchEngine.queryGetEmbedding .timeout = none ∧
    SearchEngine.queryGetEmbedding .connError = none ∧
    (∀ status body, status ≠ 200 →
      SearchEngine.neuralGetEmbedding (.resp status body) = none ∧
      SearchEngine.queryGetEmbedding (.resp status body) = none) := by
  refine ⟨rfl, rfl, rfl, rfl, rfl, rfl, ?_⟩
  intro status body h
  exact ⟨by simp [SearchEngine.neuralGetEmbedding, h],
         by simp [SearchEngine.queryGetEmbedding, h]⟩

/-- Witness for C8 at status 503. -/
theorem C8_embedding_failure_absorbed_witness :
    (503 : Nat) ≠ 200 ∧
    SearchEngine.neuralGetEmbedding (.resp 503 (some [1])) = none := by
  exact ⟨by decide,
    (C8_embedding_failure_absorbed.2.2.2.2.2.2 503 (some [1]) (by decide)).1⟩

/-- **C9.** `create_kb` rejects a name whose sanitized form already exists
with a typed `FileExistsError` and leaves the store unchanged; and when the
schema initialisation fails partway, the partially created database file is
removed before the error propagates, so the store is left unchanged. -/
theorem C9_create_kb_duplicate_and_cleanup (store : List (List Char))
    (name : List Char) (initOk : Bool) :
    (Librarian.sanitizeName name ∈ store →
      Librarian.createKb store name initOk = (.error .fileExists, store)) ∧
    (Librarian.sanitizeName name ∉ store →
      (Librarian.createKb store name false).1 = .error .schemaInitFailed ∧
      (Librarian.createKb store name false).2 = store) := by
  constructor
  · intro h
    simp [Librarian.createKb, h]
  · intro h
    constructor
    · simp [Librarian.createKb, h]
    · simp only [Librarian.createKb, if_neg h, if_neg (Bool.false_ne_true)]
      rw [List.erase_append_right _ h, List.erase_cons_head]
      simp

/-- Witness for C9: duplicate creation of `a` over a store holding `a.db`,
and failed schema initialisation for the fresh name `b`. -/
theorem C9_create_kb_duplicate_and_cleanup_witness :
    Librarian.sanitizeName "a".toList ∈ ["a.db".toList] ∧
    Librarian.createKb ["a.db".toList] "a".toList true =
      (.error .fileExists, ["a.db".toList]) ∧
    Librarian.sanitizeName "b".toList ∉ ["a.db".toList] ∧
    (Librarian.createKb ["a.db".toList] "b".toList false).2 = ["a.db".toList] := by
  refine ⟨by decide, ?_, by decide, ?_⟩
  · exact (C9_create_kb_duplicate_and_cleanup ["a.db".toList] "a".toList true).1 (by decide)
  · exact ((C9_create_kb_duplicate_and_cleanup ["a.db".toList] "b".toList true).2 (by decide)).2

/-- **C5 (code bug).** The claim says that a piece exceeding `max_size` at
every separator tier reaches the `_hard_split` sliding-window fallback and
returns chunks without raising.  In the code, the final separator tier is the
empty string, and Python's `text.split("")` raises
`ValueError: empty separator` before the tier list can become empty — so the
`_hard_split` branch is unreachable and the exception escapes: concretely for
the input `"aaaaaa"` with `max_size = 5`, and in general whenever an
oversized piece reaches the last tier. -/
theorem C5_empty_separator_raises :
    ChunkingRouter.recursiveSplit "aaaaaa".toList ChunkingRouter.defaultSeparators 5 0
      = .error .emptySeparator ∧
    (∀ (text : List Char) (maxSize overlap fuel : Nat), maxSize < text.length →
      ChunkingRouter.recursiveSplitFuel (fuel + 1) text [([] : List Char)] maxSize overlap
        = .error .emptySeparator) := by
  constructor
  · rfl
  · intro text maxSize overlap fuel h
    simp [ChunkingRouter.recursiveSplitFuel, ChunkingRouter.splitStep, Nat.not_le.mpr h]

/-- Witness for C5's general part at `text = "abc"`, `max_size = 1`. -/
theorem C5_empty_separator_raises_witness :
    1 < "abc".toList.length ∧
    ChunkingRouter.recursiveSplitFuel 1 "abc".toList [([] : List Char)] 1 0
      = .error .emptySeparator := by
  exact ⟨by decide, C5_empty_separator_raises.2 "abc".toList 1 0 0 (by decide)⟩

namespace SearchEngine

theorem extractSnippetE_ok (content query : List Char) (hq : pyWords query ≠ []) :
    extractSnippetE content query = .ok (extractSnippet content query) := by
  unfold extractSnippetE extractSnippet
  cases h : pyWords query with
  | nil => exact absurd h hq
  | cons w ws => rfl

theorem rowsE_ok (db : SearchDB) (query : List Char) (hq : pyWords query ≠ []) :
    ∀ l : List Nat, rowsE db query l
      = .ok (l.map fun id =>
          (⟨db.path id, 0, extractSnippet (db.contentOf id) query, db.contentOf id⟩
            : ResultRow)) := by
  intro l
  induction l with
  | nil => rfl
  | cons id rest ih =>
    unfold rowsE
    rw [extractSnippetE_ok _ _ hq, ih]
    rfl

/-- On a query with at least one word, `_keyword_search_only` raises nothing
and returns exactly the rows of the total model. -/
theorem keywordSearchOnlyE_ok (db : SearchDB) (query : List Char) (limit : Nat)
    (hq : pyWords query ≠ []) :
    keywordSearchOnlyE db query limit = .ok (keywordSearchOnly db query limit) := by
  unfold keywordSearchOnlyE keywordSearchOnly
  exact rowsE_ok db query hq _

end SearchEngine

/-- **C3 (counterexample).** The for-every-query no-raise guarantee fails on
a word-less query: `_extract_snippet` computes `query.lower().split()[0]`,
which raises `IndexError` — so with the embedder down and one matching
keyword row, `search`'s lexical fallback raises instead of returning
results.  Concretely, the empty query over a one-chunk store yields the
`IndexError` outcome, not a result list. -/
theorem C3_word_less_query_raises_counterexample :
    SearchEngine.pyWords [] = [] ∧
    SearchEngine.keywordSearchOnlyE
      ⟨true, [3], [], [3], fun _ => "p".toList, fun _ => "c".toList⟩ [] 1
      = .error .indexError ∧
    SearchEngine.IsSearchOutcome
      ⟨true, [3], [], [3], fun _ => "p".toList, fun _ => "c".toList⟩ [] 1 none
      (.error .indexError) := by
  refine ⟨rfl, rfl, ?_⟩
  show (.error .indexError : Except SearchEngine.PyError (List SearchEngine.ResultRow))
      = SearchEngine.keywordSearchOnlyE
          ⟨true, [3], [], [3], fun _ => "p".toList, fun _ => "c".toList⟩ [] 1
  rfl

/-- **C3 (amended).** For every query containing at least one
(non-whitespace) word, when embedding the query fails (`None` from the
embedder, or the falsy empty vector), `search` falls back to
`_keyword_search_only` and returns the keyword-ranked rows (paths in FTS
rank order, scores `0.0`) to the caller without raising; a word-less query
instead raises `IndexError` in the snippet extraction whenever a row
matches (see the counterexample). -/
theorem C3_amended_embed_failure_fallback (db : SearchEngine.SearchDB)
    (q : List Char) (limit : Nat) (emb : Option (List ℚ))
    (res : Except SearchEngine.PyError (List SearchEngine.ResultRow))
    (hpres : db.present = true) (hfail : emb = none ∨ emb = some [])
    (hq : SearchEngine.pyWords q ≠ [])
    (hres : SearchEngine.IsSearchOutcome db q limit emb res) :
    res = .ok (SearchEngine.keywordSearchOnly db q limit) ∧
    (SearchEngine.keywordSearchOnly db q limit).map (fun r => r.path)
      = (db.ftsRank.take limit).map db.path ∧
    ∀ r ∈ SearchEngine.keywordSearchOnly db q limit, r.score = 0 := by
  have hkw : res = SearchEngine.keywordSearchOnlyE db q limit := by
    rcases hfail with h | h <;> subst h <;>
      simpa [SearchEngine.IsSearchOutcome, hpres] using hres
  refine ⟨hkw.trans (SearchEngine.keywordSearchOnlyE_ok db q limit hq), ?_, ?_⟩
  · simp only [SearchEngine.keywordSearchOnly, List.map_map]
    rfl
  · intro r hr
    simp only [SearchEngine.keywordSearchOnly, List.mem_map] at hr
    obtain ⟨id, _, rfl⟩ := hr
    rfl

/-- Witness for the amended C3: the one-word query `"c"` over a one-chunk
store with the embedder down. -/
theorem C3_amended_embed_failure_fallback_witness :
    SearchEngine.pyWords "c".toList ≠ [] ∧
    SearchEngine.IsSearchOutcome
      ⟨true, [3], [], [3], fun _ => "p".toList, fun _ => "c".toList⟩ "c".toList 1 none
      (.ok (SearchEngine.keywordSearchOnly
        ⟨true, [3], [], [3], fun _ => "p".toList, fun _ => "c".toList⟩ "c".toList 1)) ∧
    ∀ r ∈ SearchEngine.keywordSearchOnly
        ⟨true, [3], [], [3], fun _ => "p".toList, fun _ => "c".toList⟩ "c".toList 1,
      r.score = 0 := by
  have hq : SearchEngine.pyWords "c".toList ≠ [] := by decide
  have hres : SearchEngine.IsSearchOutcome
      ⟨true, [3], [], [3], fun _ => "p".toList, fun _ => "c".toList⟩ "c".toList 1 none
      (.ok (SearchEngine.keywordSearchOnly
        ⟨true, [3], [], [3], fun _ => "p".toList, fun _ => "c".toList⟩ "c".toList 1)) := by
    show (.ok (SearchEngine.keywordSearchOnly
        ⟨true, [3], [], [3], fun _ => "p".toList, fun _ => "c".toList⟩ "c".toList 1)
        : Except SearchEngine.PyError (List SearchEngine.ResultRow))
      = SearchEngine.keywordSearchOnlyE
          ⟨true, [3], [], [3], fun _ => "p".toList, fun _ => "c".toList⟩ "c".toList 1
    exact (SearchEngine.keywordSearchOnlyE_ok _ _ 1 hq).symm
  exact ⟨hq, hres,
    (C3_amended_embed_failure_fallback _ _ 1 none _ rfl (Or.inl rfl) hq hres).2.2⟩

/-- **C6.** `chunk_file` routes by extension: a filename ending in `.py` is
delegated to the structural Python chunker; any other file goes through the
recursive separator splitter, whose pieces are returned wrapped as chunks
of type `"text"` named `prose_chunk_0, prose_chunk_1, …` in input order. -/
theorem C6_extension_dispatch (pc : List Char → List ChunkingRouter.CodeChunk)
    (text filename : List Char) (maxSize overlap : Nat) :
    (".py".toList.isSuffixOf filename = true →
      ChunkingRouter.chunkFile pc text filename maxSize overlap = .ok (pc text)) ∧
    (".py".toList.isSuffixOf filename = false →
      ∀ out, ChunkingRouter.chunkFile pc text filename maxSize overlap = .ok out →
        ChunkingRouter.recursiveSplit text ChunkingRouter.defaultSeparators maxSize overlap
          = .ok (out.map (fun c => c.content)) ∧
        ∀ i (hi : i < out.length),
          out[i].name = "prose_chunk_".toList ++ (Nat.repr i).toList ∧
          out[i].type = "text".toList) := by
  constructor
  · intro h
    unfold ChunkingRouter.chunkFile
    rw [if_pos h]
  · intro h out hout
    unfold ChunkingRouter.chunkFile at hout
    rw [if_neg (by rw [h]; exact Bool.false_ne_true)] at hout
    cases hsplit : ChunkingRouter.recursiveSplit text ChunkingRouter.defaultSeparators
        maxSize overlap with
    | error e => rw [hsplit] at hout; cases hout
    | ok raw =>
      rw [hsplit] at hout
      injection hout with hout
      subst hout
      constructor
      · congr 1
        rw [List.map_map]
        exact (List.enum_map_snd raw).symm
      · intro i hi
        have hi' : i < raw.enum.length := by simpa using hi
        rw [List.getElem_map]
        rw [List.getElem_enum]
        exact ⟨rfl, rfl⟩

/-- Witness for C6: a `.py` file is delegated, a `.txt` file is wrapped. -/
theorem C6_extension_dispatch_witness :
    ".py".toList.isSuffixOf "m.py".toList = true ∧
    ChunkingRouter.chunkFile (fun _ => []) "x".toList "m.py".toList 10 0 = .ok [] ∧
    ".py".toList.isSuffixOf "d.txt".toList = false ∧
    ChunkingRouter.recursiveSplit "hi".toList ChunkingRouter.defaultSeparators 10 0
      = .ok (([⟨"prose_chunk_0".toList, "text".toList, "hi".toList, 0, 0⟩]
          : List ChunkingRouter.CodeChunk).map (fun c => c.content)) := by
  refine ⟨by decide, ?_, by decide, ?_⟩
  · exact (C6_extension_dispatch (fun _ => []) "x".toList "m.py".toList 10 0).1 (by decide)
  · exact ((C6_extension_dispatch (fun _ => []) "hi".toList "d.txt".toList 10 0).2 (by decide)
      [⟨"prose_chunk_0".toList, "text".toList, "hi".toList, 0, 0⟩] (by decide)).1

namespace ChunkingRouter

theorem pyJoin_nil (sep : List Char) : pyJoin sep [] = [] := rfl

theorem pyJoin_singleton (sep d : List Char) : pyJoin sep [d] = d := rfl

theorem pyJoin_cons (sep d : List Char) (ds : List (List Char)) (h : ds ≠ []) :
    pyJoin sep (d :: ds) = d ++ sep ++ pyJoin sep ds := by
  cases ds with
  | nil => exact absurd rfl h
  | cons e es => rfl

theorem pyJoin_append_last (sep : List Char) (doc : List (List Char)) (s : List Char)
    (h : doc ≠ []) : pyJoin sep (doc ++ [s]) = pyJoin sep doc ++ sep ++ s := by
  induction doc with
  | nil => exact absurd rfl h
  | cons d ds ih =>
    cases ds with
    | nil => rfl
    | cons e es =>
      rw [List.cons_append, pyJoin_cons sep d ((e :: es) ++ [s]) (by simp),
        pyJoin_cons sep d (e :: es) (by simp), ih (by simp)]
      simp [List.append_assoc]

theorem pySlice_length_le (l : List Char) (a : Int) (cs : Int) (hcs : 0 ≤ cs) :
    (pySlice l a (a + cs)).length ≤ cs.toNat := by
  unfold pySlice
  simp only [List.length_take, List.length_drop]
  omega

/-- Every chunk emitted by the `_hard_split` window loop is a slice of at
most `chunkSize` characters. -/
theorem hardSplitFuel_chunk_le (cs ov : Int) (text : List Char) (hcs : 0 ≤ cs) :
    ∀ (fuel : Nat) (start : Int) (out : List (List Char)),
      hardSplitFuel cs ov text fuel start = some out →
      ∀ c ∈ out, c.length ≤ cs.toNat := by
  intro fuel
  induction fuel with
  | zero => intro start out h; cases h
  | succ fuel ih =>
    intro start out h c hc
    unfold hardSplitFuel at h
    by_cases hlt : start < (text.length : Int)
    · rw [if_pos hlt] at h
      cases hrec : hardSplitFuel cs ov text fuel (start + (cs - ov)) with
      | none => rw [hrec] at h; cases h
      | some rest =>
        rw [hrec] at h
        injection h with h
        subst h
        rcases List.mem_cons.mp hc with hhd | htl
        · subst hhd; exact pySlice_length_le text start cs hcs
        · exact ih _ rest hrec c htl
    · rw [if_neg hlt] at h
      injection h with h
      subst h
      cases hc

/-- Invariant of the packing loop: if every already-flushed chunk, the
buffer's joined length bound, and the recursion results are within
`maxSize`, every chunk of a successful result is within `maxSize`. -/
theorem packLoop_chunk_le (recurse : List Char → Except SplitError (List (List Char)))
    (sep : List Char) (maxSize : Nat)
    (hrec : ∀ piece sub, recurse piece = .ok sub → ∀ c ∈ sub, c.length ≤ maxSize) :
    ∀ (splits doc : List (List Char)) (curLen : Nat) (final out : List (List Char)),
      (∀ c ∈ final, c.length ≤ maxSize) →
      (pyJoin sep doc).length ≤ curLen →
      curLen ≤ maxSize →
      packLoop recurse sep maxSize splits doc curLen final = .ok out →
      ∀ c ∈ out, c.length ≤ maxSize := by
  intro splits
  induction splits with
  | nil =>
    intro doc curLen final out hfin hdoc hcur h c hc
    unfold packLoop at h
    by_cases hd : doc ≠ []
    · rw [if_pos hd] at h
      injection h with h
      subst h
      rcases List.mem_append.mp hc with hL | hR
      · exact hfin c hL
      · rw [List.mem_singleton.mp hR]; exact le_trans hdoc hcur
    · rw [if_neg hd] at h
      injection h with h
      subst h
      exact hfin c hc
  | cons s rest ih =>
    intro doc curLen final out hfin hdoc hcur h c hc
    unfold packLoop at h
    by_cases hs : s = []
    · rw [if_pos hs] at h
      exact ih doc curLen final out hfin hdoc hcur h c hc
    · rw [if_neg hs] at h
      by_cases hbig : s.length > maxSize
      · rw [if_pos hbig] at h
        cases hr : recurse s with
        | error e => rw [hr] at h; cases h
        | ok sub =>
          rw [hr] at h
          refine ih [] 0 _ out ?_ (by simp [pyJoin_nil]) (Nat.zero_le _) h c hc
          intro d hd
          rcases List.mem_append.mp hd with hL | hRsub
          · by_cases hdoc0 : doc ≠ []
            · rw [if_pos hdoc0] at hL
              rcases List.mem_append.mp hL with h1 | h2
              · exact hfin d h1
              · rw [List.mem_singleton.mp h2]; exact le_trans hdoc hcur
            · rw [if_neg hdoc0] at hL
              exact hfin d hL
          · exact hrec s sub hr d hRsub
      · rw [if_neg hbig] at h
        by_cases hov : curLen + s.length + sep.length > maxSize
        · rw [if_pos hov] at h
          refine ih [s] s.length _ out ?_ (by rw [pyJoin_singleton]) (by omega) h c hc
          intro d hd
          rcases List.mem_append.mp hd with hL | hR
          · exact hfin d hL
          · rw [List.mem_singleton.mp hR]; exact le_trans hdoc hcur
        · rw [if_neg hov] at h
          refine ih (doc ++ [s]) (curLen + s.length + sep.length) final out hfin ?_
            (by omega) h c hc
          by_cases hdoc0 : doc = []
          · subst hdoc0
            rw [List.nil_append, pyJoin_singleton]
            omega
          · rw [pyJoin_append_last sep doc s hdoc0]
            simp only [List.length_append]
            omega

/-- No successful run of `_recursive_split` (at any fuel) emits a chunk
longer than `max_size`. -/
theorem recursiveSplitFuel_chunk_le :
    ∀ (fuel : Nat) (text : List Char) (separators : List (List Char))
      (maxSize overlap : Nat) (out : List (List Char)),
      recursiveSplitFuel fuel text separators maxSize overlap = .ok out →
      ∀ c ∈ out, c.length ≤ maxSize := by
  intro fuel
  induction fuel with
  | zero =>
    intro text seps maxSize overlap out h c hc
    unfold recursiveSplitFuel at h
    by_cases hfit : text.length ≤ maxSize
    · rw [if_pos hfit] at h
      injection h with h
      subst h
      rw [List.mem_singleton.mp hc]
      exact hfit
    · rw [if_neg hfit] at h
      cases seps with
      | nil =>
        cases hhs : hardSplitFuel (maxSize : Int) (overlap : Int) text (text.length + 1) 0 with
        | none => rw [hhs] at h; cases h
        | some cs =>
          rw [hhs] at h
          injection h with h
          subst h
          have := hardSplitFuel_chunk_le (maxSize : Int) (overlap : Int) text
            (Int.ofNat_nonneg maxSize) _ _ _ hhs c hc
          simpa using this
      | cons sep rest => cases h
  | succ fuel ih =>
    intro text seps maxSize overlap out h c hc
    unfold recursiveSplitFuel at h
    by_cases hfit : text.length ≤ maxSize
    · rw [if_pos hfit] at h
      injection h with h
      subst h
      rw [List.mem_singleton.mp hc]
      exact hfit
    · rw [if_neg hfit] at h
      cases seps with
      | nil =>
        cases hhs : hardSplitFuel (maxSize : Int) (overlap : Int) text (text.length + 1) 0 with
        | none => rw [hhs] at h; cases h
        | some cs =>
          rw [hhs] at h
          injection h with h
          subst h
          have := hardSplitFuel_chunk_le (maxSize : Int) (overlap : Int) text
            (Int.ofNat_nonneg maxSize) _ _ _ hhs c hc
          simpa using this
      | cons sep rest =>
        have h' : (match splitStep sep text with
            | Except.error e => Except.error e
            | Except.ok splits =>
              packLoop (fun piece => recursiveSplitFuel fuel piece rest maxSize overlap)
                sep maxSize splits [] 0 []) = Except.ok out := h
        cases hst : splitStep sep text with
        | error e => rw [hst] at h'; cases h'
        | ok splits =>
          rw [hst] at h'
          exact packLoop_chunk_le _ sep maxSize
            (fun piece sub hsub => ih piece rest maxSize overlap sub hsub)
            splits [] 0 [] out (by intro d hd; cases hd) (by rw [pyJoin_nil]; exact Nat.zero_le 0)
            (Nat.zero_le maxSize) h' c hc

end ChunkingRouter

/-- **C2.** For every input text and every `max_size = N`, a successful run
of the recursive splitter (`_recursive_split` together with its
`_hard_split` fallback, whose window slices are clamped to `chunk_size`
characters) never produces a chunk longer than `N` characters — the claim's
allowance for an oversized final window piece is never even needed. -/
theorem C2_chunks_never_exceed_max_size (text : List Char)
    (separators : List (List Char)) (maxSize overlap : Nat)
    (out : List (List Char))
    (h : ChunkingRouter.recursiveSplit text separators maxSize overlap = .ok out) :
    ∀ c ∈ out, c.length ≤ maxSize :=
  ChunkingRouter.recursiveSplitFuel_chunk_le separators.length text separators
    maxSize overlap out h

/-- Witness for C2 on a concrete successful split (`"aa bb"`, `max_size = 2`,
which exercises the word tier and even emits an empty flush chunk). -/
theorem C2_chunks_never_exceed_max_size_witness :
    ChunkingRouter.recursiveSplit "aa bb".toList ChunkingRouter.defaultSeparators 2 0
      = .ok [[], "aa".toList, "bb".toList] ∧
    "aa".toList.length ≤ 2 := by
  have hok : ChunkingRouter.recursiveSplit "aa bb".toList ChunkingRouter.defaultSeparators 2 0
      = .ok [[], "aa".toList, "bb".toList] := by decide
  exact ⟨hok, C2_chunks_never_exceed_max_size "aa bb".toList ChunkingRouter.defaultSeparators
    2 0 [[], "aa".toList, "bb".toList] hok "aa".toList (by decide)⟩

namespace ChunkingRouter

/-- With `0 ≤ overlap < chunk_size` the window start strictly increases by
`chunk_size - overlap ≥ 1` per iteration, so `text.length + 1` fuel always
suffices and the emitted windows cover every character position. -/
theorem hardSplit_terminates_covers (text : List Char) (cs ov : Int)
    (hov : 0 ≤ ov) (hlt : ov < cs) :
    ∀ (fuel : Nat) (start : Int), 0 ≤ start →
      ((text.length : Int) - start).toNat < fuel →
      ∃ out, hardSplitFuel cs ov text fuel start = some out ∧
        ∀ i : Nat, start ≤ (i : Int) → i < text.length →
          ∃ c ∈ out, ∃ s : Int, c = pySlice text s (s + cs) ∧
            s ≤ (i : Int) ∧ (i : Int) < s + cs := by
  intro fuel
  induction fuel with
  | zero =>
    intro start h0 hfuel
    exact absurd hfuel (Nat.not_lt_zero _)
  | succ fuel ih =>
    intro start h0 hfuel
    by_cases hs : start < (text.length : Int)
    · have hnext0 : 0 ≤ start + (cs - ov) := by omega
      have hnextf : ((text.length : Int) - (start + (cs - ov))).toNat < fuel := by omega
      obtain ⟨out, hout, hcov⟩ := ih (start + (cs - ov)) hnext0 hnextf
      refine ⟨pySlice text start (start + cs) :: out, ?_, ?_⟩
      · unfold hardSplitFuel
        rw [if_pos hs, hout]
      · intro i h1 h2
        by_cases hi : (i : Int) < start + (cs - ov)
        · exact ⟨pySlice text start (start + cs), List.mem_cons_self _ _, start, rfl, h1,
            by omega⟩
        · obtain ⟨c, hc, s, hc1, hc2, hc3⟩ := hcov i (by omega) h2
          exact ⟨c, List.mem_cons_of_mem _ hc, s, hc1, hc2, hc3⟩
    · refine ⟨[], ?_, ?_⟩
      · unfold hardSplitFuel
        rw [if_neg hs]
      · intro i h1 h2
        exfalso
        omega

/-- With `overlap = chunk_size` the window start never advances: the Python
loop runs forever (no fuel returns). -/
theorem hardSplitFuel_overlap_eq_size_diverges :
    ∀ fuel : Nat, hardSplitFuel 5 5 "a".toList fuel 0 = none := by
  intro fuel
  induction fuel with
  | zero => rfl
  | succ fuel ih =>
    unfold hardSplitFuel
    rw [if_pos (by decide), show (0 : Int) + (5 - 5) = 0 by norm_num, ih]

end ChunkingRouter

/-- **C10.** For every text, `_hard_split` terminates whenever
`overlap < chunk_size` (the start strictly increases by
`chunk_size - overlap`), and its windows cover the whole input; termination
is not guaranteed when `overlap ≥ chunk_size` — concretely, with
`chunk_size = overlap = 5` on `"a"` the loop never returns under any fuel —
so `overlap < max_size` is a genuine precondition of the chunking
interface. -/
theorem C10_hard_split_termination_and_coverage (text : List Char) (cs ov : Int)
    (hov : 0 ≤ ov) (hlt : ov < cs) :
    (∃ out, ChunkingRouter.hardSplitFuel cs ov text (text.length + 1) 0 = some out ∧
      ∀ i : Nat, i < text.length →
        ∃ c ∈ out, ∃ s : Int, c = ChunkingRouter.pySlice text s (s + cs) ∧
          s ≤ (i : Int) ∧ (i : Int) < s + cs) ∧
    (∀ fuel : Nat, ChunkingRouter.hardSplitFuel 5 5 "a".toList fuel 0 = none) := by
  constructor
  · obtain ⟨out, hout, hcov⟩ := ChunkingRouter.hardSplit_terminates_covers text cs ov hov hlt
      (text.length + 1) 0 le_rfl (by omega)
    exact ⟨out, hout, fun i hi => hcov i (by omega) hi⟩
  · exact ChunkingRouter.hardSplitFuel_overlap_eq_size_diverges

/-- Witness for C10 at `chunk_size = 2`, `overlap = 1`, text `"abc"`. -/
theorem C10_hard_split_termination_and_coverage_witness :
    (0 : Int) ≤ 1 ∧ (1 : Int) < 2 ∧
    (∃ out, ChunkingRouter.hardSplitFuel 2 1 "abc".toList ("abc".toList.length + 1) 0
        = some out ∧
      ∀ i : Nat, i < "abc".toList.length →
        ∃ c ∈ out, ∃ s : Int, c = ChunkingRouter.pySlice "abc".toList s (s + 2) ∧
          s ≤ (i : Int) ∧ (i : Int) < s + 2) :=
  ⟨by norm_num, by norm_num,
    (C10_hard_split_termination_and_coverage "abc".toList 2 1 (by norm_num) (by norm_num)).1⟩

namespace ChunkingRouter

theorem consHead_ne_nil (c : Char) (L : List (List Char)) : consHead c L ≠ [] := by
  cases L <;> simp [consHead]

theorem pySplitFuel_ne_nil (fuel : Nat) (sep text : List Char) :
    pySplitFuel fuel sep text ≠ [] := by
  cases fuel with
  | zero => cases text <;> simp [pySplitFuel]
  | succ fuel =>
    cases text with
    | nil => simp [pySplitFuel]
    | cons c rest =>
      unfold pySplitFuel
      by_cases hm : sep ≠ [] ∧ sep.isPrefixOf (c :: rest)
      · rw [if_pos hm]; simp
      · rw [if_neg hm]; exact consHead_ne_nil _ _

theorem pyJoin_consHead (sep : List Char) (c : Char) (L : List (List Char)) (h : L ≠ []) :
    pyJoin sep (consHead c L) = c :: pyJoin sep L := by
  cases L with
  | nil => exact absurd rfl h
  | cons p ps =>
    cases ps with
    | nil => rfl
    | cons q qs =>
      rw [consHead, pyJoin_cons sep (c :: p) (q :: qs) (by simp),
        pyJoin_cons sep p (q :: qs) (by simp)]
      rfl

/-- Splitting and rejoining with the same (non-empty) separator reconstructs
the text. -/
theorem pySplitFuel_join (sep : List Char) (hsep : sep ≠ []) :
    ∀ (fuel : Nat) (text : List Char), text.length ≤ fuel →
      pyJoin sep (pySplitFuel fuel sep text) = text := by
  intro fuel
  induction fuel with
  | zero =>
    intro text h
    have : text = [] := List.eq_nil_of_length_eq_zero (Nat.le_zero.mp h)
    subst this
    rfl
  | succ fuel ih =>
    intro text h
    cases text with
    | nil => rfl
    | cons c rest =>
      unfold pySplitFuel
      by_cases hm : sep ≠ [] ∧ sep.isPrefixOf (c :: rest)
      · rw [if_pos hm]
        rw [pyJoin_cons sep [] _ (pySplitFuel_ne_nil _ _ _)]
        obtain ⟨t, ht⟩ := List.isPrefixOf_iff_prefix.mp hm.2
        have hlen : ((c :: rest).drop sep.length).length ≤ fuel := by
          rw [List.length_drop]
          have hsl : 1 ≤ sep.length := List.length_pos.mpr hsep
          simp only [List.length_cons] at h ⊢
          omega
        rw [ih _ hlen, ← ht, List.drop_left]
        simp
      · rw [if_neg hm]
        rw [pyJoin_consHead sep c _ (pySplitFuel_ne_nil _ _ _)]
        rw [ih rest (by simpa using Nat.le_of_succ_le_succ (by simpa using h))]

theorem pyJoin_append (sep : List Char) (a b : List (List Char)) (ha : a ≠ []) (hb : b ≠ []) :
    pyJoin sep (a ++ b) = pyJoin sep a ++ sep ++ pyJoin sep b := by
  induction a with
  | nil => exact absurd rfl ha
  | cons d ds ih =>
    cases ds with
    | nil =>
      rw [List.cons_append, List.nil_append, pyJoin_singleton,
        pyJoin_cons sep d b hb]
    | cons e es =>
      rw [List.cons_append, pyJoin_cons sep d ((e :: es) ++ b) (by simp),
        pyJoin_cons sep d (e :: es) (by simp), ih (by simp)]
      simp [List.append_assoc]

/-- A separator-join of a contiguous run of pieces occurs verbatim inside the
separator-join of all the pieces. -/
theorem pyJoin_infix (sep : List Char) (l1 l2 l3 : List (List Char)) :
    pyJoin sep l2 <:+: pyJoin sep (l1 ++ l2 ++ l3) := by
  by_cases h2 : l2 = []
  · subst h2
    exact List.nil_infix
  by_cases h1 : l1 = []
  · by_cases h3 : l3 = []
    · subst h1 h3
      simp only [List.nil_append, List.append_nil]
      exact List.infix_refl _
    · subst h1
      rw [List.nil_append, pyJoin_append sep l2 l3 h2 h3]
      exact ⟨[], sep ++ pyJoin sep l3, by simp [List.append_assoc]⟩
  · by_cases h3 : l3 = []
    · subst h3
      rw [List.append_nil, pyJoin_append sep l1 l2 h1 h2]
      exact ⟨pyJoin sep l1 ++ sep, [], by simp [List.append_assoc]⟩
    · rw [pyJoin_append sep (l1 ++ l2) l3 (by simp [h1]) h3,
        pyJoin_append sep l1 l2 h1 h2]
      exact ⟨pyJoin sep l1 ++ sep, sep ++ pyJoin sep l3, by simp [List.append_assoc]⟩

/-- When every piece is non-empty and fits `max_size`, the packing loop only
ever flushes joins of contiguous runs of pieces (relative to the pending
buffer `doc` and the already-flushed `final`). -/
theorem packLoop_runs (recurse : List Char → Except SplitError (List (List Char)))
    (sep : List Char) (maxSize : Nat) :
    ∀ (splits doc : List (List Char)) (curLen : Nat) (final out : List (List Char)),
      (∀ p ∈ splits, p ≠ [] ∧ p.length ≤ maxSize) →
      packLoop recurse sep maxSize splits doc curLen final = .ok out →
      ∀ c ∈ out,
        c ∈ final ∨
        (∃ k, c = pyJoin sep (doc ++ splits.take k)) ∨
        (∃ i k, c = pyJoin sep ((splits.drop i).take k)) := by
  intro splits
  induction splits with
  | nil =>
    intro doc curLen final out hall h c hc
    unfold packLoop at h
    by_cases hd : doc ≠ []
    · rw [if_pos hd] at h
      injection h with h
      subst h
      rcases List.mem_append.mp hc with h1 | h2
      · exact Or.inl h1
      · refine Or.inr (Or.inl ⟨0, ?_⟩)
        rw [List.mem_singleton.mp h2]
        simp
    · rw [if_neg hd] at h
      injection h with h
      subst h
      exact Or.inl hc
  | cons s rest ih =>
    intro doc curLen final out hall h c hc
    have hs := hall s (List.mem_cons_self s rest)
    have hall' : ∀ p ∈ rest, p ≠ [] ∧ p.length ≤ maxSize :=
      fun p hp => hall p (List.mem_cons_of_mem _ hp)
    unfold packLoop at h
    rw [if_neg hs.1] at h
    rw [if_neg (by omega : ¬s.length > maxSize)] at h
    by_cases hov : curLen + s.length + sep.length > maxSize
    · rw [if_pos hov] at h
      rcases ih [s] s.length (final ++ [pyJoin sep doc]) out hall' h c hc with
        hF | ⟨k, hk⟩ | ⟨i, k, hik⟩
      · rcases List.mem_append.mp hF with h1 | h2
        · exact Or.inl h1
        · refine Or.inr (Or.inl ⟨0, ?_⟩)
          rw [List.mem_singleton.mp h2]
          simp
      · refine Or.inr (Or.inr ⟨0, k + 1, ?_⟩)
        rw [List.drop_zero, List.take_succ_cons]
        exact hk
      · refine Or.inr (Or.inr ⟨i + 1, k, ?_⟩)
        rw [List.drop_succ_cons]
        exact hik
    · rw [if_neg hov] at h
      rcases ih (doc ++ [s]) (curLen + s.length + sep.length) final out hall' h c hc with
        hF | ⟨k, hk⟩ | ⟨i, k, hik⟩
      · exact Or.inl hF
      · refine Or.inr (Or.inl ⟨k + 1, ?_⟩)
        rw [List.take_succ_cons, hk]
        simp [List.append_assoc]
      · refine Or.inr (Or.inr ⟨i + 1, k, ?_⟩)
        rw [List.drop_succ_cons]
        exact hik

end ChunkingRouter

/-- **C4 (counterexample).** A chunk of `chunk_file` need not be a contiguous
substring of the input: the splitter drops empty pieces and rejoins the kept
pieces with a single copy of the separator.  For the input
`"a" + "\n"*6 + "b"` with `max_size = 6`, the single produced chunk is
`"a\n\nb"`, which occurs nowhere in the input text. -/
theorem C4_chunk_not_substring_counterexample :
    ChunkingRouter.chunkFile (fun _ => []) "a\n\n\n\n\n\nb".toList "notes.txt".toList 6 0
      = .ok [⟨"prose_chunk_0".toList, "text".toList, "a\n\nb".toList, 0, 0⟩] ∧
    ¬ ("a\n\nb".toList <:+: "a\n\n\n\n\n\nb".toList) := by
  exact ⟨by decide, by decide⟩

/-- **C4 (amended).** Chunks are separator-joins of contiguous runs of split
pieces.  Whenever the first-tier split (on `"\n\n"`) of a non-Python file
yields only non-empty pieces that each fit `max_size`, every chunk produced
by `chunk_file` is a contiguous substring of the parent's verbatim input
text (for the general input, the counterexample above shows the claim
fails). -/
theorem C4_amended_chunks_are_substrings (pc : List Char → List ChunkingRouter.CodeChunk)
    (text filename : List Char) (maxSize overlap : Nat)
    (hname : ".py".toList.isSuffixOf filename = false)
    (hpieces : ∀ p ∈ ChunkingRouter.pySplit "\n\n".toList text,
      p ≠ [] ∧ p.length ≤ maxSize)
    (out : List ChunkingRouter.CodeChunk)
    (hout : ChunkingRouter.chunkFile pc text filename maxSize overlap = .ok out) :
    ∀ ch ∈ out, ch.content <:+: text := by
  unfold ChunkingRouter.chunkFile at hout
  rw [if_neg (by rw [hname]; exact Bool.false_ne_true)] at hout
  cases hsplit : ChunkingRouter.recursiveSplit text ChunkingRouter.defaultSeparators
      maxSize overlap with
  | error e => rw [hsplit] at hout; cases hout
  | ok raw =>
    rw [hsplit] at hout
    injection hout with hout
    subst hout
    intro ch hch
    have hcontent : ch.content ∈ raw := by
      rcases List.mem_map.mp hch with ⟨p, hp, rfl⟩
      have hm : p.2 ∈ raw.enum.map Prod.snd := List.mem_map_of_mem Prod.snd hp
      rw [List.enum_map_snd] at hm
      exact hm
    by_cases hfit : text.length ≤ maxSize
    · have hraw : [text] = raw := by
        have h2 := hsplit
        unfold ChunkingRouter.recursiveSplit ChunkingRouter.recursiveSplitFuel at h2
        rw [if_pos hfit] at h2
        injection h2
      rw [← hraw] at hcontent
      rw [List.mem_singleton.mp hcontent]
    · have hstep : ChunkingRouter.recursiveSplit text ChunkingRouter.defaultSeparators
          maxSize overlap
          = ChunkingRouter.packLoop
              (fun piece => ChunkingRouter.recursiveSplitFuel 4 piece
                ["\n".toList, "(?<=[.?!])\\s+".toList, " ".toList, []] maxSize overlap)
              "\n\n".toList maxSize (ChunkingRouter.pySplit "\n\n".toList text) [] 0 [] := by
        unfold ChunkingRouter.recursiveSplit ChunkingRouter.recursiveSplitFuel
        rw [if_neg hfit]
        rfl
      rw [hstep] at hsplit
      have hjoin : ChunkingRouter.pyJoin "\n\n".toList
          (ChunkingRouter.pySplit "\n\n".toList text) = text :=
        ChunkingRouter.pySplitFuel_join "\n\n".toList (by decide) text.length text le_rfl
      rcases ChunkingRouter.packLoop_runs _ "\n\n".toList maxSize
          (ChunkingRouter.pySplit "\n\n".toList text) [] 0 [] raw hpieces hsplit
          ch.content hcontent with hF | ⟨k, hk⟩ | ⟨i, k, hik⟩
      · cases hF
      · rw [List.nil_append] at hk
        have h := ChunkingRouter.pyJoin_infix "\n\n".toList []
          ((ChunkingRouter.pySplit "\n\n".toList text).take k)
          ((ChunkingRouter.pySplit "\n\n".toList text).drop k)
        rw [List.nil_append, List.take_append_drop, hjoin] at h
        rw [hk]
        exact h
      · have h := ChunkingRouter.pyJoin_infix "\n\n".toList
          ((ChunkingRouter.pySplit "\n\n".toList text).take i)
          (((ChunkingRouter.pySplit "\n\n".toList text).drop i).take k)
          (((ChunkingRouter.pySplit "\n\n".toList text).drop i).drop k)
        rw [List.append_assoc, List.take_append_drop, List.take_append_drop, hjoin] at h
        rw [hik]
        exact h

/-- Witness for the amended C4 (`"ab\n\ncd"`, `max_size = 3`: pieces `"ab"`,
`"cd"` are non-empty and fit, and every chunk — `""`, `"ab"`, `"cd"` — is a
substring). -/
theorem C4_amended_chunks_are_substrings_witness :
    ".py".toList.isSuffixOf "d.txt".toList = false ∧
    (∀ p ∈ ChunkingRouter.pySplit "\n\n".toList "ab\n\ncd".toList,
      p ≠ [] ∧ p.length ≤ 3) ∧
    ∀ ch ∈ ([⟨"prose_chunk_0".toList, "text".toList, [], 0, 0⟩,
        ⟨"prose_chunk_1".toList, "text".toList, "ab".toList, 0, 0⟩,
        ⟨"prose_chunk_2".toList, "text".toList, "cd".toList, 0, 0⟩]
        : List ChunkingRouter.CodeChunk),
      ch.content <:+: "ab\n\ncd".toList := by
  refine ⟨by decide, by decide, ?_⟩
  exact C4_amended_chunks_are_substrings (fun _ => []) "ab\n\ncd".toList "d.txt".toList 3 0
    (by decide) (by decide) _ (by decide)

namespace SearchEngine

theorem floor_le_roundHalfEven (q : ℚ) : ⌊q⌋ ≤ roundHalfEven q := by
  unfold roundHalfEven
  split_ifs <;> omega

theorem roundHalfEven_le_floor_add_one (q : ℚ) : roundHalfEven q ≤ ⌊q⌋ + 1 := by
  unfold roundHalfEven
  split_ifs <;> omega

theorem roundHalfEven_mono {x y : ℚ} (h : x ≤ y) :
    roundHalfEven x ≤ roundHalfEven y := by
  by_cases hlt : ⌊x⌋ < ⌊y⌋
  · have h1 := roundHalfEven_le_floor_add_one x
    have h2 := floor_le_roundHalfEven y
    omega
  · have heq : ⌊y⌋ = ⌊x⌋ := le_antisymm (not_lt.mp hlt) (Int.floor_le_floor h)
    have hr : x - ⌊x⌋ ≤ y - ⌊x⌋ := sub_le_sub_right h _
    unfold roundHalfEven
    rw [heq]
    split_ifs <;> first | omega | linarith

theorem pyRound4_mono {x y : ℚ} (h : x ≤ y) : pyRound4 x ≤ pyRound4 y := by
  unfold pyRound4
  have hm : roundHalfEven (x * 10000) ≤ roundHalfEven (y * 10000) :=
    roundHalfEven_mono (mul_le_mul_of_nonneg_right h (by norm_num))
  have hq : ((roundHalfEven (x * 10000) : ℚ)) ≤ (roundHalfEven (y * 10000) : ℚ) := by
    exact_mod_cast hm
  linarith

/-- The two-chunk database exhibiting an RRF tie: chunk 1 is vector-rank 1
(score `1/61`), chunk 2 is keyword-rank 1 (score `1/61`). -/
def tieDB : SearchDB :=
  ⟨true, [1, 2], [1], [2],
    fun id => if id = 1 then "p1".toList else "p2".toList,
    fun _ => "c".toList⟩

end SearchEngine

namespace SearchEngine

theorem tieDB_score_one : rrfScore [1] [2] 1 = 1 / 61 := by
  norm_num [rrfScore, rankOf, rankOfAux]

theorem tieDB_score_two : rrfScore [1] [2] 2 = 1 / 61 := by
  norm_num [rrfScore, rankOf, rankOfAux]

theorem tieDB_scored_eval :
    hybridScored tieDB = [(1, 1 / 61), (2, 1 / 61)] := by
  have hcand : hybridCandidates tieDB = [1, 2] := by decide
  have hv50 : vec50 tieDB = [1] := by decide
  have hf50 : fts50 tieDB = [2] := by decide
  unfold hybridScored
  rw [hcand, hv50, hf50]
  rw [show List.map (fun id => (id, rrfScore [1] [2] id)) [1, 2]
    = [(1, rrfScore [1] [2] 1), (2, rrfScore [1] [2] 2)] from rfl]
  rw [tieDB_score_one, tieDB_score_two]

theorem tieDB_sorted_pair (a b : Nat) :
    ScoreSortedDesc [(a, (1 : ℚ) / 61), (b, 1 / 61)] := by
  unfold ScoreSortedDesc
  simp

/-- Both orders of the tied pair are valid outputs of the hybrid query. -/
theorem tieDB_both_orders :
    IsSearchResult tieDB "c".toList 2 (some [1])
      [mkHybridRow tieDB "c".toList (1, 1 / 61),
       mkHybridRow tieDB "c".toList (2, 1 / 61)] ∧
    IsSearchResult tieDB "c".toList 2 (some [1])
      [mkHybridRow tieDB "c".toList (2, 1 / 61),
       mkHybridRow tieDB "c".toList (1, 1 / 61)] := by
  constructor
  · show ∃ scored : List (Nat × ℚ),
      scored.Perm (hybridScored tieDB) ∧ ScoreSortedDesc scored ∧
      [mkHybridRow tieDB "c".toList (1, 1 / 61), mkHybridRow tieDB "c".toList (2, 1 / 61)]
        = (scored.take 2).map (mkHybridRow tieDB "c".toList)
    refine ⟨[(1, 1 / 61), (2, 1 / 61)], ?_, tieDB_sorted_pair 1 2, rfl⟩
    rw [tieDB_scored_eval]
  · show ∃ scored : List (Nat × ℚ),
      scored.Perm (hybridScored tieDB) ∧ ScoreSortedDesc scored ∧
      [mkHybridRow tieDB "c".toList (2, 1 / 61), mkHybridRow tieDB "c".toList (1, 1 / 61)]
        = (scored.take 2).map (mkHybridRow tieDB "c".toList)
    refine ⟨[(2, 1 / 61), (1, 1 / 61)], ?_, tieDB_sorted_pair 2 1, rfl⟩
    rw [tieDB_scored_eval]
    exact List.Perm.swap _ _ _

end SearchEngine

/-- **C7 (counterexample).** The search SQL orders only by
`rrf_score DESC` with no secondary key, so a result list that puts the
keyword-only candidate (vector rank: none) *before* the vector-rank-1
candidate at an equal fused score is a perfectly valid output of the code —
the claimed vector-rank tie-break does not hold. -/
theorem C7_tie_break_counterexample :
    SearchEngine.IsSearchResult SearchEngine.tieDB "c".toList 2 (some [1])
      [SearchEngine.mkHybridRow SearchEngine.tieDB "c".toList (2, 1 / 61),
       SearchEngine.mkHybridRow SearchEngine.tieDB "c".toList (1, 1 / 61)] ∧
    SearchEngine.rrfScore [1] [2] 1 = SearchEngine.rrfScore [1] [2] 2 ∧
    SearchEngine.rankOf [1] 1 = some 1 ∧
    SearchEngine.rankOf [1] 2 = none ∧
    (SearchEngine.mkHybridRow SearchEngine.tieDB "c".toList (2, 1 / 61)).path
      = "p2".toList ∧
    (SearchEngine.mkHybridRow SearchEngine.tieDB "c".toList (1, 1 / 61)).path
      = "p1".toList := by
  refine ⟨SearchEngine.tieDB_both_orders.2, ?_, by decide, by decide, rfl, rfl⟩
  rw [SearchEngine.tieDB_score_one, SearchEngine.tieDB_score_two]

/-- **C7 (amended).** The hybrid search orders results by fused score
(weakly) descending; the relative order of equal-score candidates is left
unspecified by the query (no secondary sort key) — both orders of a tied
pair are code-valid outputs — so vector-rank order is not guaranteed. -/
theorem C7_amended_score_descending (db : SearchEngine.SearchDB) (q : List Char)
    (limit : Nat) (v : List ℚ) (res : List SearchEngine.ResultRow)
    (hv : v ≠ []) (hpres : db.present = true)
    (hres : SearchEngine.IsSearchResult db q limit (some v) res) :
    res.Pairwise (fun a b => b.score ≤ a.score) ∧
    (SearchEngine.IsSearchResult SearchEngine.tieDB "c".toList 2 (some [1])
        [SearchEngine.mkHybridRow SearchEngine.tieDB "c".toList (1, 1 / 61),
         SearchEngine.mkHybridRow SearchEngine.tieDB "c".toList (2, 1 / 61)] ∧
      SearchEngine.IsSearchResult SearchEngine.tieDB "c".toList 2 (some [1])
        [SearchEngine.mkHybridRow SearchEngine.tieDB "c".toList (2, 1 / 61),
         SearchEngine.mkHybridRow SearchEngine.tieDB "c".toList (1, 1 / 61)] ∧
      [SearchEngine.mkHybridRow SearchEngine.tieDB "c".toList (1, 1 / 61),
       SearchEngine.mkHybridRow SearchEngine.tieDB "c".toList (2, 1 / 61)]
        ≠ [SearchEngine.mkHybridRow SearchEngine.tieDB "c".toList (2, 1 / 61),
           SearchEngine.mkHybridRow SearchEngine.tieDB "c".toList (1, 1 / 61)]) := by
  refine ⟨?_, SearchEngine.tieDB_both_orders.1, SearchEngine.tieDB_both_orders.2, ?_⟩
  · cases v with
    | nil => exact absurd rfl hv
    | cons a as =>
      simp only [SearchEngine.IsSearchResult, hpres] at hres
      rw [if_neg (by simp)] at hres
      obtain ⟨scored, _, hsort, hres'⟩ := hres
      subst hres'
      apply List.pairwise_map.mpr
      have htake : (scored.take limit).Pairwise (fun a b => b.2 ≤ a.2) :=
        List.Pairwise.sublist (List.take_sublist limit scored) hsort
      exact htake.imp (fun hab => SearchEngine.pyRound4_mono hab)
  · intro hcontra
    injection hcontra with h1 _
    have hp := congrArg SearchEngine.ResultRow.path h1
    simp [SearchEngine.mkHybridRow, SearchEngine.tieDB] at hp

/-- Witness for the amended C7 at the concrete tie database. -/
theorem C7_amended_score_descending_witness :
    ([1] : List ℚ) ≠ [] ∧ SearchEngine.tieDB.present = true ∧
    List.Pairwise (fun (a b : SearchEngine.ResultRow) => b.score ≤ a.score)
      [SearchEngine.mkHybridRow SearchEngine.tieDB "c".toList (1, 1 / 61),
       SearchEngine.mkHybridRow SearchEngine.tieDB "c".toList (2, 1 / 61)] :=
  ⟨by simp, rfl,
    (C7_amended_score_descending SearchEngine.tieDB "c".toList 2 [1] _
      (by simp) rfl SearchEngine.tieDB_both_orders.1).1⟩
